import Mathlib

/-
Verification of the term-at-a-time TF-IDF scoring notebook
(practicum-1, `3_Taat_scoring.ipynb`).

The Python program is embedded shallowly:

  * Python dicts become insertion-ordered association lists (`Dict` below),
    with `dget` modelling `d.get(k, default)` / `d[k]` and `dset` modelling
    `d[k] = v` (an existing key keeps its position, a new key is appended,
    exactly as CPython dicts behave).
  * Python floats become real numbers; `/` on numbers is real division.
  * `set(query)` iteration becomes `List.dedup` (iteration order of the set
    is irrelevant here because the loop only accumulates a sum).
  * `round(x, 3)` is modelled as `⌊1000 x + 1/2⌋`; all values it is applied
    to are proved to lie strictly inside their rounding interval, where
    round-half-even and round-half-up agree.
-/

namespace Taat

/-- Insertion-ordered association list modelling a Python dict. -/
abbrev Dict (α β : Type) := List (α × β)

/-- `dget d k v₀` models Python `d.get(k, v₀)` (and `d[k]` where the key is
known to be present). -/
def dget [BEq α] : Dict α β → α → β → β
  | [], _, v0 => v0
  | p :: rest, k, v0 => if p.1 == k then p.2 else dget rest k v0

/-- `dset d k v` models Python `d[k] = v`: an existing key keeps its position,
a new key is appended at the end. -/
def dset [BEq α] : Dict α β → α → β → Dict α β
  | [], k, v => [(k, v)]
  | p :: rest, k, v => if p.1 == k then (k, v) :: rest else p :: dset rest k v

/-- The keys of a dict, in insertion order. -/
def keys (d : Dict α β) : List α := d.map Prod.fst

/-- The hardcoded term-document matrix of the notebook. -/
def td_matrix : Dict String (List ℕ) :=
  [("beijing", [0, 1, 0, 0, 1]),
   ("dish",    [0, 1, 0, 0, 1]),
   ("duck",    [3, 2, 2, 0, 1]),
   ("rabbit",  [0, 0, 1, 1, 0]),
   ("recipe",  [0, 0, 1, 1, 1]),
   ("roast",   [0, 0, 0, 0, 0])]

/-- `NUM_DOCS = 5`, set manually in the notebook. -/
def NUM_DOCS : ℕ := 5

/-- The index-builder loop of the notebook: for each term it creates an empty
posting list (`inv_idx[term] = []`), then for every `(doc_id, freq)` of
`enumerate(vec)` with `freq > 0` appends the posting and accumulates
`doclen[doc_id] = doclen.get(doc_id, 0) + freq`. -/
def buildIndex (m : Dict String (List ℕ)) :
    Dict String (List (ℕ × ℕ)) × Dict ℕ ℕ :=
  m.foldl (fun acc tv =>
    tv.2.enum.foldl (fun acc2 p =>
      if 0 < p.2 then
        (dset acc2.1 tv.1 (dget acc2.1 tv.1 [] ++ [p]),
         dset acc2.2 p.1 (dget acc2.2 p.1 0 + p.2))
      else acc2)
      (dset acc.1 tv.1 [], acc.2))
    ([], [])

/-- `inv_idx`, the inverted index built from `td_matrix`. -/
def inv_idx : Dict String (List (ℕ × ℕ)) := (buildIndex td_matrix).1

/-- `doclen`, the document-length table built alongside `inv_idx`. -/
def doclen : Dict ℕ ℕ := (buildIndex td_matrix).2

/-- `InvIndex.postings`: `self.idx.get(term, [])`. -/
def postings (term : String) : List (ℕ × ℕ) := dget inv_idx term []

/-- `InvIndex.terms`: `self.idx.keys()`. -/
def terms : List String := keys inv_idx

theorem inv_idx_eval :
    inv_idx = [("beijing", [(1, 1), (4, 1)]),
               ("dish",    [(1, 1), (4, 1)]),
               ("duck",    [(0, 3), (1, 2), (2, 2), (4, 1)]),
               ("rabbit",  [(2, 1), (3, 1)]),
               ("recipe",  [(2, 1), (3, 1), (4, 1)]),
               ("roast",   [])] := by decide

theorem doclen_eval :
    doclen = [(1, 4), (4, 4), (0, 3), (2, 4), (3, 2)] := by decide

/-- The notebook's `idf`:
`math.log(NUM_DOCS / len(idx.postings(term))) if len(idx.postings(term)) > 0 else 0`.
Note that the source uses `math.log`, the natural logarithm. -/
noncomputable def idf (term : String) : ℝ :=
  if 0 < (postings term).length then
    Real.log ((NUM_DOCS : ℝ) / ((postings term).length : ℝ))
  else 0

/-- The summation part of the document-normalizer precomputation:
for every term and every posting `(doc_id, freq)`,
`docnorm[doc_id] = docnorm.get(doc_id, 0) + (freq / doclen[doc_id] * idf(term))**2`. -/
noncomputable def docnormSums : Dict ℕ ℝ :=
  terms.foldl (fun dn term =>
    (postings term).foldl (fun dn2 p =>
      let tf : ℝ := (p.2 : ℝ) / ((dget doclen p.1 0 : ℕ) : ℝ)
      let tfidf : ℝ := tf * idf term
      dset dn2 p.1 (dget dn2 p.1 0 + tfidf ^ 2)) dn) []

/-- The sqrt part of the precomputation: `docnorm[doc_id] = math.sqrt(...)`
applied to every entry in place. -/
noncomputable def docnorm : Dict ℕ ℝ :=
  docnormSums.map (fun p => (p.1, Real.sqrt p.2))

/-- The query normalizer of `score_tt`: over `set(query)`,
`qnorm += (query.count(term) / len(query) * idf(term))**2`, then `sqrt`. -/
noncomputable def qnorm (query : List String) : ℝ :=
  Real.sqrt (query.dedup.foldl (fun a term =>
    let tf : ℝ := (query.count term : ℝ) / (query.length : ℝ)
    let tfidf : ℝ := tf * idf term
    a + tfidf ^ 2) 0)

/-- The notebook's `score_tt`: term-at-a-time accumulation of
`score_term = tfidf_tq * tfidf_td / (qnorm * docnorm[doc_id])`
into the `scores` dict. -/
noncomputable def score_tt (query : List String) : Dict ℕ ℝ :=
  let qn := qnorm query
  query.foldl (fun scores term =>
    (postings term).foldl (fun scores2 p =>
      let tf_td : ℝ := (p.2 : ℝ) / ((dget doclen p.1 0 : ℕ) : ℝ)
      let tfidf_td : ℝ := tf_td * idf term
      let tf_tq : ℝ := 1 / (query.length : ℝ)
      let tfidf_tq : ℝ := tf_tq * idf term
      let score_term : ℝ := tfidf_tq * tfidf_td / (qn * dget docnorm p.1 0)
      dset scores2 p.1 (dget scores2 p.1 0 + score_term)) scores) []

/-- The per-posting contribution accumulated by `score_tt` (the source's
`score_term` expression, as a function of the query, the term and the
posting). -/
noncomputable def score_term (query : List String) (term : String) (p : ℕ × ℕ) : ℝ :=
  (1 / (query.length : ℝ) * idf term) *
    ((p.2 : ℝ) / ((dget doclen p.1 0 : ℕ) : ℝ) * idf term) /
    (qnorm query * dget docnorm p.1 0)

/-- Executing `score_tt query` in Python raises no exception: every division
it performs has a nonzero divisor and every subscript (`doclen[doc_id]`,
`docnorm[doc_id]`) hits an existing key.  (The divisor `len(query)` is only
evaluated inside the two loops, so it is only constrained when the
corresponding loop body runs.) -/
def score_tt_noerror (query : List String) : Prop :=
  (query.dedup ≠ [] → (query.length : ℝ) ≠ 0) ∧
  ∀ term ∈ query, ∀ p ∈ postings term,
    p.1 ∈ keys doclen ∧ ((dget doclen p.1 0 : ℕ) : ℝ) ≠ 0 ∧
    (query.length : ℝ) ≠ 0 ∧
    p.1 ∈ keys docnorm ∧ qnorm query * dget docnorm p.1 0 ≠ 0

/-- The square of the query normalizer, written as a sum over the distinct
query terms (used to characterize `qnorm`). -/
noncomputable def qnormSq (query : List String) : ℝ :=
  (query.dedup.map
    (fun term => ((query.count term : ℝ) / (query.length : ℝ) * idf term) ^ 2)).sum

/-- The query-normalizer sum before dividing by the query length:
`sum over distinct t of (count(t) * idf(t))^2` (used to relate the
normalizers of a query and of the query with a term removed). -/
noncomputable def Usum (query : List String) : ℝ :=
  (query.dedup.map (fun term => ((query.count term : ℝ) * idf term) ^ 2)).sum

/-- `ln (5/2)`: the idf value the code produces for the document-frequency-2
terms `"beijing"`, `"dish"` and `"rabbit"`. -/
noncomputable def lB : ℝ := Real.log ((5 : ℝ) / 2)

/-- `ln (5/4)`: the idf value the code produces for `"duck"`. -/
noncomputable def lA : ℝ := Real.log ((5 : ℝ) / 4)

/-- `ln (5/3)`: the idf value the code produces for `"recipe"`. -/
noncomputable def lC : ℝ := Real.log ((5 : ℝ) / 3)

/-- Closed form of the accumulated `docnorm` sum for document 0. -/
noncomputable def dnorm0sq : ℝ := lA ^ 2

/-- Closed form of the accumulated `docnorm` sum for document 1. -/
noncomputable def dnorm1sq : ℝ := lB ^ 2 / 8 + lA ^ 2 / 4

/-- Closed form of the accumulated `docnorm` sum for document 2. -/
noncomputable def dnorm2sq : ℝ := lA ^ 2 / 4 + lB ^ 2 / 16 + lC ^ 2 / 16

/-- Closed form of the accumulated `docnorm` sum for document 3. -/
noncomputable def dnorm3sq : ℝ := lB ^ 2 / 4 + lC ^ 2 / 4

/-- Closed form of the accumulated `docnorm` sum for document 4. -/
noncomputable def dnorm4sq : ℝ := lB ^ 2 / 8 + lA ^ 2 / 16 + lC ^ 2 / 16

/-- Closed form of the squared query normalizer for the worked-example query. -/
noncomputable def qsq : ℝ := (lB ^ 2 + lA ^ 2 + lC ^ 2) / 9

/-- Closed form of the score of document 0 for the worked-example query. -/
noncomputable def s0 : ℝ := lA ^ 2 / 3 / (Real.sqrt qsq * Real.sqrt dnorm0sq)

/-- Closed form of the score of document 1 for the worked-example query. -/
noncomputable def s1 : ℝ :=
  (lB ^ 2 / 12 + lA ^ 2 / 6) / (Real.sqrt qsq * Real.sqrt dnorm1sq)

/-- Closed form of the score of document 2 for the worked-example query. -/
noncomputable def s2 : ℝ :=
  (lA ^ 2 / 6 + lC ^ 2 / 12) / (Real.sqrt qsq * Real.sqrt dnorm2sq)

/-- Closed form of the score of document 3 for the worked-example query. -/
noncomputable def s3 : ℝ := lC ^ 2 / 6 / (Real.sqrt qsq * Real.sqrt dnorm3sq)

/-- Closed form of the score of document 4 for the worked-example query. -/
noncomputable def s4 : ℝ :=
  (lB ^ 2 / 12 + lA ^ 2 / 12 + lC ^ 2 / 12) / (Real.sqrt qsq * Real.sqrt dnorm4sq)

open Classical in
/-- Stable insertion (descending by score) used to model Python's stable
`sorted(scores.items(), key=lambda x: x[1], reverse=True)`. -/
noncomputable def insertDesc (p : ℕ × ℝ) : List (ℕ × ℝ) → List (ℕ × ℝ)
  | [] => [p]
  | q :: rest => if p.2 ≥ q.2 then p :: q :: rest else q :: insertDesc p rest

/-- Stable descending sort of the scores dict by score. -/
noncomputable def sortDesc (l : List (ℕ × ℝ)) : List (ℕ × ℝ) := l.foldr insertDesc []

/-- `round(x, 3)` in units of thousandths.  Python rounds half to even; for
every value this development applies it to, the value is proved to lie
strictly inside its rounding interval, where half-to-even and half-up agree,
so `⌊1000 x + 1/2⌋` is a faithful model. -/
noncomputable def round3 (x : ℝ) : ℤ := ⌊x * 1000 + 1 / 2⌋

/-- The display loop: sort by descending score then print
`"D" + str(doc_id + 1) + ":", round(score, 3)`.  A line is modelled as the
label string together with the rounded score as a rational. -/
noncomputable def displayLines (scores : Dict ℕ ℝ) : List (String × ℚ) :=
  (sortDesc scores).map
    (fun p => ("D" ++ toString (p.1 + 1), (round3 p.2 : ℚ) / 1000))

/-- The spec's variant of `idf`, using `log10` as the spec and the notebook
markdown prescribe (`idf(t) = log10(N / n_t)`, 0 when the posting list is
empty).  Used for the refinement claim that the pipeline's output does not
depend on the logarithm base. -/
noncomputable def idf10 (term : String) : ℝ :=
  if 0 < (postings term).length then
    Real.logb 10 ((NUM_DOCS : ℝ) / ((postings term).length : ℝ))
  else 0

/-- The document-normalizer sums computed with `idf10` instead of `idf`. -/
noncomputable def docnormSums10 : Dict ℕ ℝ :=
  terms.foldl (fun dn term =>
    (postings term).foldl (fun dn2 p =>
      let tf : ℝ := (p.2 : ℝ) / ((dget doclen p.1 0 : ℕ) : ℝ)
      let tfidf : ℝ := tf * idf10 term
      dset dn2 p.1 (dget dn2 p.1 0 + tfidf ^ 2)) dn) []

/-- The document normalizers computed with `idf10`. -/
noncomputable def docnorm10 : Dict ℕ ℝ :=
  docnormSums10.map (fun p => (p.1, Real.sqrt p.2))

/-- The query normalizer computed with `idf10`. -/
noncomputable def qnorm10 (query : List String) : ℝ :=
  Real.sqrt (query.dedup.foldl (fun a term =>
    let tf : ℝ := (query.count term : ℝ) / (query.length : ℝ)
    let tfidf : ℝ := tf * idf10 term
    a + tfidf ^ 2) 0)

/-- `score_tt` computed with `idf10` (and the `idf10`-based normalizers). -/
noncomputable def score_tt10 (query : List String) : Dict ℕ ℝ :=
  let qn := qnorm10 query
  query.foldl (fun scores term =>
    (postings term).foldl (fun scores2 p =>
      let tf_td : ℝ := (p.2 : ℝ) / ((dget doclen p.1 0 : ℕ) : ℝ)
      let tfidf_td : ℝ := tf_td * idf10 term
      let tf_tq : ℝ := 1 / (query.length : ℝ)
      let tfidf_tq : ℝ := tf_tq * idf10 term
      let score_term : ℝ := tfidf_tq * tfidf_td / (qn * dget docnorm10 p.1 0)
      dset scores2 p.1 (dget scores2 p.1 0 + score_term)) scores) []

/-- The per-posting contribution of `score_tt10`. -/
noncomputable def score_term10 (query : List String) (term : String) (p : ℕ × ℕ) : ℝ :=
  (1 / (query.length : ℝ) * idf10 term) *
    ((p.2 : ℝ) / ((dget doclen p.1 0 : ℕ) : ℝ) * idf10 term) /
    (qnorm10 query * dget docnorm10 p.1 0)

/- ## Generic dict lemmas -/

theorem dget_of_contains_eq_false [BEq α] [LawfulBEq α]
    (d : Dict α β) (k : α) (v0 : β) (h : (keys d).contains k = false) :
    dget d k v0 = v0 := by
  induction d with
  | nil => rfl
  | cons p rest ih =>
    simp only [keys, List.map_cons, List.contains_cons, Bool.or_eq_false_iff] at h
    have h1 : (p.1 == k) = false :=
      beq_eq_false_iff_ne.2 fun e => (beq_eq_false_iff_ne.1 h.1) e.symm
    simp only [dget, h1, if_neg]
    simpa using ih h.2

theorem dget_of_lookup_eq_some [BEq α] [LawfulBEq α]
    (d : Dict α β) (k : α) (v0 v : β) (h : d.lookup k = some v) :
    dget d k v0 = v := by
  induction d with
  | nil => simp [List.lookup] at h
  | cons p rest ih =>
    rcases p with ⟨a, b⟩
    by_cases hk : a = k
    · subst hk
      simp [List.lookup] at h
      simp [dget, h]
    · have h1 : (k == a) = false := beq_eq_false_iff_ne.2 fun e => hk e.symm
      have h2 : (a == k) = false := beq_eq_false_iff_ne.2 hk
      simp [List.lookup, h1] at h
      simp [dget, h2, ih h]

/- ## Concrete posting lists -/

theorem postings_beijing : postings "beijing" = [(1, 1), (4, 1)] := by decide

theorem postings_dish : postings "dish" = [(1, 1), (4, 1)] := by decide

theorem postings_duck : postings "duck" = [(0, 3), (1, 2), (2, 2), (4, 1)] := by decide

theorem postings_rabbit : postings "rabbit" = [(2, 1), (3, 1)] := by decide

theorem postings_recipe : postings "recipe" = [(2, 1), (3, 1), (4, 1)] := by decide

theorem postings_roast : postings "roast" = [] := by decide

/-- Claim C3: for every term whose posting list is empty, `idf` returns 0 (the
guard `if len(...) > 0 else 0` takes the else branch, so there is no division
by zero and no log of infinity). -/
theorem idf_empty_postings_eq_zero (term : String) (h : postings term = []) :
    idf term = 0 := by
  simp [idf, h]

/-- Witness for C3 at the concrete term `"roast"`, whose posting list is empty. -/
theorem idf_empty_postings_eq_zero_witness :
    postings "roast" = [] ∧ idf "roast" = 0 :=
  ⟨by decide, idf_empty_postings_eq_zero "roast" (by decide)⟩

/-- Claim C4: for every string term, `InvIndex.postings` (that is,
`self.idx.get(term, [])`) returns the stored posting list when the term is a
key of the index and the empty list otherwise; being a total function, it
never fails. -/
theorem postings_lookup_or_default (term : String) :
    (∀ ps, inv_idx.lookup term = some ps → postings term = ps) ∧
    ((keys inv_idx).contains term = false → postings term = []) := by
  constructor
  · intro ps h
    exact dget_of_lookup_eq_some inv_idx term [] ps h
  · intro h
    exact dget_of_contains_eq_false inv_idx term [] h

/-- Witness for C4 at the unknown term `"peking"`. -/
theorem postings_lookup_or_default_witness :
    (keys inv_idx).contains "peking" = false ∧ postings "peking" = [] :=
  ⟨by decide, (postings_lookup_or_default "peking").2 (by decide)⟩

/-- Claim C2 fails on the code: the source computes `idf` with `math.log`,
the natural logarithm, while the spec (and the notebook's own markdown
instruction "Use base 10 for the logarithm") prescribes `log10`.  At the term
`"beijing"` (document frequency 2, `N = 5`) the code returns `ln (5/2)`,
which is not `log10 (5/2)`. -/
theorem idf_beijing_is_natural_log_not_log10 :
    idf "beijing" = Real.log ((5 : ℝ) / 2) ∧
    Real.log ((5 : ℝ) / 2) ≠ Real.logb 10 ((5 : ℝ) / 2) := by
  constructor
  · rw [idf, postings_beijing]
    norm_num [NUM_DOCS]
  · have h1 : 0 < Real.log ((5 : ℝ) / 2) := Real.log_pos (by norm_num)
    have h2 : 1 < Real.log 10 :=
      (Real.lt_log_iff_exp_lt (by norm_num)).2
        (lt_trans Real.exp_one_lt_d9 (by norm_num))
    have h3 : Real.log 10 ≠ 0 := ne_of_gt (lt_trans zero_lt_one h2)
    intro heq
    rw [Real.logb] at heq
    rw [eq_div_iff h3] at heq
    nlinarith [h1, h2, heq]

theorem dget_dset_self [BEq α] [LawfulBEq α] (d : Dict α β) (k : α) (v v0 : β) :
    dget (dset d k v) k v0 = v := by
  induction d with
  | nil => simp [dset, dget]
  | cons p rest ih =>
    by_cases h : (p.1 == k) = true <;> simp [dset, dget, h, ih]

theorem dget_dset_ne [BEq α] [LawfulBEq α] (d : Dict α β) (k k' : α) (v v0 : β)
    (hne : ¬k' = k) : dget (dset d k v) k' v0 = dget d k' v0 := by
  have hkk : (k == k') = false := beq_eq_false_iff_ne.2 fun e => hne e.symm
  induction d with
  | nil => simp [dset, dget, hkk]
  | cons p rest ih =>
    by_cases h : (p.1 == k) = true
    · have hp : p.1 = k := eq_of_beq h
      have hp2 : (p.1 == k') = false := by rw [hp]; exact hkk
      simp [dset, dget, h, hp2, hkk]
    · by_cases h2 : (p.1 == k') = true <;> simp [dset, dget, h, h2, ih]

theorem mem_keys_dset [BEq α] [LawfulBEq α] (d : Dict α β) (k k' : α) (v : β) :
    k' ∈ keys (dset d k v) ↔ k' = k ∨ k' ∈ keys d := by
  induction d with
  | nil => simp [dset, keys]
  | cons p rest ih =>
    by_cases h : (p.1 == k) = true
    · have hp : p.1 = k := eq_of_beq h
      simp [dset, h, keys, hp]
    · simp only [dset, h, Bool.false_eq_true, if_false, keys, List.map_cons,
        List.mem_cons]
      have ih2 := ih
      simp only [keys] at ih2
      rw [ih2]
      tauto

/-- Characterization of an accumulation loop
`for p in ps: sc[key p] = sc.get(key p, 0) + c p`:
afterwards each entry holds its prior value plus the sum of the contributions
whose key matches it. -/
theorem dget_accum_foldl [BEq α] [LawfulBEq α] {β : Type} [AddCommMonoid β] {π : Type}
    (key : π → α) (c : π → β) (ps : List π) (sc : Dict α β) (d : α) :
    dget (ps.foldl (fun sc2 p => dset sc2 (key p) (dget sc2 (key p) 0 + c p)) sc) d 0
      = dget sc d 0 + ((ps.filter (fun p => key p == d)).map c).sum := by
  induction ps generalizing sc with
  | nil => simp
  | cons p rest ih =>
    simp only [List.foldl_cons]
    rw [ih]
    by_cases h : (key p == d) = true
    · have hkd : key p = d := eq_of_beq h
      have h2 : dget (dset sc (key p) (dget sc (key p) 0 + c p)) d 0
          = dget sc d 0 + c p := by
        rw [← hkd]; exact dget_dset_self sc (key p) _ 0
      rw [h2, List.filter_cons]
      simp only [h, if_true, List.map_cons, List.sum_cons, add_assoc]
    · have hkd : ¬d = key p := fun e => h (by rw [e]; exact beq_self_eq_true (key p))
      rw [dget_dset_ne sc (key p) d _ 0 hkd, List.filter_cons]
      simp only [h, Bool.false_eq_true, if_false]

/-- Key-membership characterization of the same accumulation loop. -/
theorem mem_keys_accum_foldl [BEq α] [LawfulBEq α] {β : Type} [AddCommMonoid β] {π : Type}
    (key : π → α) (c : π → β) (ps : List π) (sc : Dict α β) (d : α) :
    d ∈ keys (ps.foldl (fun sc2 p => dset sc2 (key p) (dget sc2 (key p) 0 + c p)) sc)
      ↔ d ∈ keys sc ∨ ∃ p ∈ ps, key p = d := by
  induction ps generalizing sc with
  | nil => simp
  | cons p rest ih =>
    simp only [List.foldl_cons]
    rw [ih, mem_keys_dset]
    constructor
    · rintro ((rfl | hsc) | ⟨p2, hp2, rfl⟩)
      · exact Or.inr ⟨p, List.mem_cons_self p rest, rfl⟩
      · exact Or.inl hsc
      · exact Or.inr ⟨p2, List.mem_cons_of_mem p hp2, rfl⟩
    · rintro (hsc | ⟨p2, hp2, rfl⟩)
      · exact Or.inl (Or.inr hsc)
      · rcases List.mem_cons.1 hp2 with rfl | hp2
        · exact Or.inl (Or.inl rfl)
        · exact Or.inr ⟨p2, hp2, rfl⟩

/-- Claim C7: every document `d` that appears in some posting list is mapped
by the builder's `doclen` table to the sum, over all terms' posting lists, of
the frequencies recorded there for `d`. -/
theorem doclen_eq_sum_postings (d : ℕ)
    (h : ∃ t ps f, (t, ps) ∈ inv_idx ∧ (d, f) ∈ ps) :
    dget doclen d 0 =
      (inv_idx.map
        (fun tp => ((tp.2.filter (fun p => p.1 == d)).map Prod.snd).sum)).sum := by
  obtain ⟨t, ps, f, hmem, hd⟩ := h
  rw [inv_idx_eval] at hmem
  have hd5 : d = 0 ∨ d = 1 ∨ d = 2 ∨ d = 3 ∨ d = 4 := by
    simp only [List.mem_cons, List.not_mem_nil, or_false, Prod.mk.injEq] at hmem
    rcases hmem with ⟨-, rfl⟩ | ⟨-, rfl⟩ | ⟨-, rfl⟩ | ⟨-, rfl⟩ | ⟨-, rfl⟩ | ⟨-, rfl⟩ <;>
      simp only [List.mem_cons, List.not_mem_nil, or_false, Prod.mk.injEq] at hd <;>
      omega
  rcases hd5 with rfl | rfl | rfl | rfl | rfl <;> decide

/-- Witness for C7 at document 0, which appears in the posting list of
`"duck"` with frequency 3; its length is 3. -/
theorem doclen_eq_sum_postings_witness :
    (∃ t ps f, (t, ps) ∈ inv_idx ∧ ((0 : ℕ), f) ∈ ps) ∧
    dget doclen 0 0 =
      (inv_idx.map
        (fun tp => ((tp.2.filter (fun p => p.1 == 0)).map Prod.snd).sum)).sum :=
  ⟨⟨"duck", [(0, 3), (1, 2), (2, 2), (4, 1)], 3, by decide, by decide⟩,
   doclen_eq_sum_postings 0
     ⟨"duck", [(0, 3), (1, 2), (2, 2), (4, 1)], 3, by decide, by decide⟩⟩

/- ## Characterization of qnorm and score_tt -/

theorem foldl_add_eq_sum {σ : Type} (f : σ → ℝ) :
    ∀ (l : List σ) (a : ℝ), l.foldl (fun acc x => acc + f x) a = a + (l.map f).sum
  | [], a => by simp
  | x :: rest, a => by
    simp only [List.foldl_cons, List.map_cons, List.sum_cons]
    rw [foldl_add_eq_sum f rest (a + f x)]
    ring

theorem qnorm_eq_sqrt_qnormSq (q : List String) :
    qnorm q = Real.sqrt (qnormSq q) := by
  have h : qnorm q = Real.sqrt (q.dedup.foldl
      (fun acc term =>
        acc + ((q.count term : ℝ) / (q.length : ℝ) * idf term) ^ 2) 0) := rfl
  rw [h, foldl_add_eq_sum
    (fun term => ((q.count term : ℝ) / (q.length : ℝ) * idf term) ^ 2) q.dedup 0]
  simp [qnormSq]

theorem score_tt_eq_accum (q : List String) :
    score_tt q = q.foldl (fun scores term =>
      (postings term).foldl (fun scores2 p =>
        dset scores2 p.1 (dget scores2 p.1 0 + score_term q term p)) scores) [] := rfl

theorem dget_score_tt (q : List String) (d : ℕ) :
    dget (score_tt q) d 0 =
      (q.map (fun t =>
        (((postings t).filter (fun p => p.1 == d)).map (score_term q t)).sum)).sum := by
  rw [score_tt_eq_accum]
  have main : ∀ (l : List String) (sc : Dict ℕ ℝ),
      dget (l.foldl (fun scores term =>
        (postings term).foldl (fun scores2 p =>
          dset scores2 p.1 (dget scores2 p.1 0 + score_term q term p)) scores) sc) d 0
        = dget sc d 0 +
          (l.map (fun t =>
            (((postings t).filter (fun p => p.1 == d)).map (score_term q t)).sum)).sum := by
    intro l
    induction l with
    | nil => intro sc; simp
    | cons t rest ih =>
      intro sc
      simp only [List.foldl_cons, List.map_cons, List.sum_cons]
      rw [ih, dget_accum_foldl Prod.fst (score_term q t) (postings t) sc d]
      ring
  simpa [dget] using main q []

theorem mem_keys_score_tt (q : List String) (d : ℕ) :
    d ∈ keys (score_tt q) ↔ ∃ t ∈ q, ∃ p ∈ postings t, p.1 = d := by
  rw [score_tt_eq_accum]
  have main : ∀ (l : List String) (sc : Dict ℕ ℝ),
      d ∈ keys (l.foldl (fun scores term =>
        (postings term).foldl (fun scores2 p =>
          dset scores2 p.1 (dget scores2 p.1 0 + score_term q term p)) scores) sc)
        ↔ d ∈ keys sc ∨ ∃ t ∈ l, ∃ p ∈ postings t, p.1 = d := by
    intro l
    induction l with
    | nil => intro sc; simp
    | cons t rest ih =>
      intro sc
      simp only [List.foldl_cons]
      rw [ih, mem_keys_accum_foldl Prod.fst (score_term q t) (postings t) sc d]
      constructor
      · rintro ((hsc | ⟨p, hp, rfl⟩) | ⟨t2, ht2, p, hp, rfl⟩)
        · exact Or.inl hsc
        · exact Or.inr ⟨t, List.mem_cons_self t rest, p, hp, rfl⟩
        · exact Or.inr ⟨t2, List.mem_cons_of_mem t ht2, p, hp, rfl⟩
      · rintro (hsc | ⟨t2, ht2, p, hp, rfl⟩)
        · exact Or.inl (Or.inl hsc)
        · rcases List.mem_cons.1 ht2 with rfl | ht2
          · exact Or.inl (Or.inr ⟨p, hp, rfl⟩)
          · exact Or.inr ⟨t2, ht2, p, hp, rfl⟩
  simpa [keys] using main q []

/-- Claim C5: for every query `q` and every permutation `q'` of `q`,
`score_tt q` and `score_tt q'` return equal score mappings: the same document
keys and the same score for every document (only term multiplicities matter,
not query order). -/
theorem score_tt_perm_invariant (q q' : List String) (h : q.Perm q') :
    (∀ d, d ∈ keys (score_tt q) ↔ d ∈ keys (score_tt q')) ∧
    (∀ d, dget (score_tt q) d 0 = dget (score_tt q') d 0) := by
  have hlen : q.length = q'.length := h.length_eq
  have hcount : ∀ t, q.count t = q'.count t := fun t => h.countP_eq _
  have hqsq : qnormSq q = qnormSq q' := by
    unfold qnormSq
    have hfun : (fun term => ((q.count term : ℝ) / (q.length : ℝ) * idf term) ^ 2)
        = (fun term => ((q'.count term : ℝ) / (q'.length : ℝ) * idf term) ^ 2) := by
      funext t
      rw [hcount t, hlen]
    rw [hfun]
    exact (h.dedup.map _).sum_eq
  have hqn : qnorm q = qnorm q' := by
    rw [qnorm_eq_sqrt_qnormSq, qnorm_eq_sqrt_qnormSq, hqsq]
  have hst : ∀ t p, score_term q t p = score_term q' t p := by
    intro t p
    unfold score_term
    rw [hqn, hlen]
  constructor
  · intro d
    rw [mem_keys_score_tt, mem_keys_score_tt]
    constructor
    · rintro ⟨t, ht, hp⟩
      exact ⟨t, h.subset ht, hp⟩
    · rintro ⟨t, ht, hp⟩
      exact ⟨t, h.symm.subset ht, hp⟩
  · intro d
    rw [dget_score_tt, dget_score_tt]
    have hfun : (fun t =>
        (((postings t).filter (fun p => p.1 == d)).map (score_term q t)).sum)
        = (fun t =>
        (((postings t).filter (fun p => p.1 == d)).map (score_term q' t)).sum) := by
      funext t
      rw [show score_term q t = score_term q' t from funext (hst t)]
    rw [hfun]
    exact (h.map _).sum_eq

/-- Witness for C5 with the concrete queries `["duck","beijing"]` and
`["beijing","duck"]`. -/
theorem score_tt_perm_invariant_witness :
    (["duck", "beijing"] : List String).Perm ["beijing", "duck"] ∧
    dget (score_tt ["duck", "beijing"]) 1 0
      = dget (score_tt ["beijing", "duck"]) 1 0 :=
  ⟨List.Perm.swap "beijing" "duck" [],
   (score_tt_perm_invariant ["duck", "beijing"] ["beijing", "duck"]
     (List.Perm.swap "beijing" "duck" [])).2 1⟩

/- ## Concrete idf and normalizer values -/

theorem terms_eval :
    terms = ["beijing", "dish", "duck", "rabbit", "recipe", "roast"] := by decide

theorem idf_beijing : idf "beijing" = lB := by
  unfold idf lB
  rw [postings_beijing]
  norm_num [NUM_DOCS]

theorem idf_dish : idf "dish" = lB := by
  unfold idf lB
  rw [postings_dish]
  norm_num [NUM_DOCS]

theorem idf_duck : idf "duck" = lA := by
  unfold idf lA
  rw [postings_duck]
  norm_num [NUM_DOCS]

theorem idf_rabbit : idf "rabbit" = lB := by
  unfold idf lB
  rw [postings_rabbit]
  norm_num [NUM_DOCS]

theorem idf_recipe : idf "recipe" = lC := by
  unfold idf lC
  rw [postings_recipe]
  norm_num [NUM_DOCS]

theorem idf_roast : idf "roast" = 0 := by
  simp [idf, postings_roast]

theorem docnormSums_eval :
    docnormSums
      = [(1, dnorm1sq), (4, dnorm4sq), (0, dnorm0sq), (2, dnorm2sq), (3, dnorm3sq)] := by
  unfold docnormSums
  rw [terms_eval]
  simp only [List.foldl_cons, List.foldl_nil, postings_beijing, postings_dish,
    postings_duck, postings_rabbit, postings_recipe, postings_roast,
    idf_beijing, idf_dish, idf_duck, idf_rabbit, idf_recipe, idf_roast,
    doclen_eval]
  norm_num [dget, dset, dnorm0sq, dnorm1sq, dnorm2sq, dnorm3sq, dnorm4sq]
  ring_nf
  norm_num

theorem docnorm_eval :
    docnorm = [(1, Real.sqrt dnorm1sq), (4, Real.sqrt dnorm4sq),
               (0, Real.sqrt dnorm0sq), (2, Real.sqrt dnorm2sq),
               (3, Real.sqrt dnorm3sq)] := by
  unfold docnorm
  rw [docnormSums_eval]
  rfl

theorem dget_docnorm_0 : dget docnorm 0 0 = Real.sqrt dnorm0sq := by
  rw [docnorm_eval]; simp [dget]

theorem dget_docnorm_1 : dget docnorm 1 0 = Real.sqrt dnorm1sq := by
  rw [docnorm_eval]; simp [dget]

theorem dget_docnorm_2 : dget docnorm 2 0 = Real.sqrt dnorm2sq := by
  rw [docnorm_eval]; simp [dget]

theorem dget_docnorm_3 : dget docnorm 3 0 = Real.sqrt dnorm3sq := by
  rw [docnorm_eval]; simp [dget]

theorem dget_docnorm_4 : dget docnorm 4 0 = Real.sqrt dnorm4sq := by
  rw [docnorm_eval]; simp [dget]

theorem qnorm_query_eval :
    qnorm ["beijing", "duck", "recipe"] = Real.sqrt qsq := by
  rw [qnorm_eq_sqrt_qnormSq]
  congr 1
  unfold qnormSq qsq
  have hded : (["beijing", "duck", "recipe"] : List String).dedup
      = ["beijing", "duck", "recipe"] := by decide
  have hc1 : (["beijing", "duck", "recipe"] : List String).count "beijing" = 1 := by decide
  have hc2 : (["beijing", "duck", "recipe"] : List String).count "duck" = 1 := by decide
  have hc3 : (["beijing", "duck", "recipe"] : List String).count "recipe" = 1 := by decide
  rw [hded]
  simp only [List.map_cons, List.map_nil, List.sum_cons, List.sum_nil,
    idf_beijing, idf_duck, idf_recipe, hc1, hc2, hc3, List.length_cons,
    List.length_nil]
  push_cast
  ring

theorem score_tt_query_eval :
    score_tt ["beijing", "duck", "recipe"]
      = [(1, s1), (4, s4), (0, s0), (2, s2), (3, s3)] := by
  rw [score_tt_eq_accum]
  simp only [List.foldl_cons, List.foldl_nil, postings_beijing, postings_duck,
    postings_recipe]
  simp only [score_term, qnorm_query_eval, idf_beijing, idf_duck, idf_recipe,
    doclen_eval, dget_docnorm_0, dget_docnorm_1, dget_docnorm_2,
    dget_docnorm_3, dget_docnorm_4, List.length_cons, List.length_nil]
  norm_num [dget, dset, s0, s1, s2, s3, s4]
  ring_nf
  simp

/- ## Numeric bounds on the logarithms and the score values -/

theorem sqrt_bounds_of_bounds {x r1 r2 : ℝ} (h1 : r1 ^ 2 ≤ x) (h2 : x < r2 ^ 2)
    (hr2 : 0 < r2) : r1 ≤ Real.sqrt x ∧ Real.sqrt x < r2 :=
  ⟨Real.le_sqrt_of_sq_le h1, (Real.sqrt_lt' hr2).2 h2⟩

theorem lA_bounds : (0.22314347 : ℝ) < lA ∧ lA < 0.22314364 := by
  have habs : |(-(1 / 4 : ℝ))| = 1 / 4 := by
    rw [abs_neg]
    exact abs_of_nonneg (by norm_num)
  have h := @Real.abs_log_sub_add_sum_range_le (-(1 / 4 : ℝ))
    (by rw [habs]; norm_num) 11
  rw [habs, show (1 : ℝ) - -(1 / 4) = 5 / 4 by norm_num, abs_le] at h
  simp only [Finset.sum_range_succ, Finset.sum_range_zero] at h
  norm_num at h
  unfold lA
  constructor <;> linarith [h.1, h.2]

theorem log43_bounds :
    (0.28768196 : ℝ) < Real.log ((4 : ℝ) / 3) ∧
    Real.log ((4 : ℝ) / 3) < 0.28768218 := by
  have habs : |(-(1 / 3 : ℝ))| = 1 / 3 := by
    rw [abs_neg]
    exact abs_of_nonneg (by norm_num)
  have h := @Real.abs_log_sub_add_sum_range_le (-(1 / 3 : ℝ))
    (by rw [habs]; norm_num) 14
  rw [habs, show (1 : ℝ) - -(1 / 3) = 4 / 3 by norm_num, abs_le] at h
  simp only [Finset.sum_range_succ, Finset.sum_range_zero] at h
  norm_num at h
  constructor <;> linarith [h.1, h.2]

theorem lB_eq : lB = lA + Real.log 2 := by
  unfold lB lA
  rw [show (5 : ℝ) / 2 = 5 / 4 * 2 by norm_num]
  exact Real.log_mul (by norm_num) (by norm_num)

theorem lC_eq : lC = lA + Real.log ((4 : ℝ) / 3) := by
  unfold lC lA
  rw [show (5 : ℝ) / 3 = 5 / 4 * (4 / 3) by norm_num]
  exact Real.log_mul (by norm_num) (by norm_num)

theorem lB_bounds : (0.91629065 : ℝ) < lB ∧ lB < 0.91629083 := by
  rw [lB_eq]
  have h1 := lA_bounds
  have h2 := Real.log_two_gt_d9
  have h3 := Real.log_two_lt_d9
  constructor <;> linarith [h1.1, h1.2]

theorem lC_bounds : (0.51082543 : ℝ) < lC ∧ lC < 0.51082582 := by
  rw [lC_eq]
  have h1 := lA_bounds
  have h2 := log43_bounds
  constructor <;> linarith [h1.1, h1.2, h2.1, h2.2]

theorem sqrtqsq_bounds :
    (0.357510556 : ℝ) ≤ Real.sqrt qsq ∧ Real.sqrt qsq < 0.357510682 := by
  have hA := lA_bounds
  have hB := lB_bounds
  have hC := lC_bounds
  apply sqrt_bounds_of_bounds
  · unfold qsq
    nlinarith [hA.1, hA.2, hB.1, hB.2, hC.1, hC.2]
  · unfold qsq
    nlinarith [hA.1, hA.2, hB.1, hB.2, hC.1, hC.2]
  · norm_num

theorem sqrtd0_bounds :
    (0.22314347 : ℝ) ≤ Real.sqrt dnorm0sq ∧ Real.sqrt dnorm0sq < 0.22314364 := by
  have hA := lA_bounds
  apply sqrt_bounds_of_bounds
  · unfold dnorm0sq
    nlinarith [hA.1, hA.2]
  · unfold dnorm0sq
    nlinarith [hA.1, hA.2]
  · norm_num

theorem sqrtd1_bounds :
    (0.342632195 : ℝ) ≤ Real.sqrt dnorm1sq ∧ Real.sqrt dnorm1sq < 0.342632284 := by
  have hA := lA_bounds
  have hB := lB_bounds
  apply sqrt_bounds_of_bounds
  · unfold dnorm1sq
    nlinarith [hA.1, hA.2, hB.1, hB.2]
  · unfold dnorm1sq
    nlinarith [hA.1, hA.2, hB.1, hB.2]
  · norm_num

theorem sqrtd2_bounds :
    (0.285011316 : ℝ) ≤ Real.sqrt dnorm2sq ∧ Real.sqrt dnorm2sq < 0.28501143 := by
  have hA := lA_bounds
  have hB := lB_bounds
  have hC := lC_bounds
  apply sqrt_bounds_of_bounds
  · unfold dnorm2sq
    nlinarith [hA.1, hA.2, hB.1, hB.2, hC.1, hC.2]
  · unfold dnorm2sq
    nlinarith [hA.1, hA.2, hB.1, hB.2, hC.1, hC.2]
  · norm_num

theorem sqrtd3_bounds :
    (0.524531022 : ℝ) ≤ Real.sqrt dnorm3sq ∧ Real.sqrt dnorm3sq < 0.524531197 := by
  have hB := lB_bounds
  have hC := lC_bounds
  apply sqrt_bounds_of_bounds
  · unfold dnorm3sq
    nlinarith [hB.1, hB.2, hC.1, hC.2]
  · unfold dnorm3sq
    nlinarith [hB.1, hB.2, hC.1, hC.2]
  · norm_num

theorem sqrtd4_bounds :
    (0.352660667 : ℝ) ≤ Real.sqrt dnorm4sq ∧ Real.sqrt dnorm4sq < 0.352660768 := by
  have hA := lA_bounds
  have hB := lB_bounds
  have hC := lC_bounds
  apply sqrt_bounds_of_bounds
  · unfold dnorm4sq
    nlinarith [hA.1, hA.2, hB.1, hB.2, hC.1, hC.2]
  · unfold dnorm4sq
    nlinarith [hA.1, hA.2, hB.1, hB.2, hC.1, hC.2]
  · norm_num

theorem s0_bounds : (0.208052 : ℝ) < s0 ∧ s0 < 0.208054 := by
  have hq := sqrtqsq_bounds
  have hd := sqrtd0_bounds
  have hA := lA_bounds
  have hQD : (0.079776146 : ℝ) ≤ Real.sqrt qsq * Real.sqrt dnorm0sq ∧
      Real.sqrt qsq * Real.sqrt dnorm0sq < 0.079776235 :=
    ⟨by nlinarith [hq.1, hq.2, hd.1, hd.2], by nlinarith [hq.1, hq.2, hd.1, hd.2]⟩
  have hN : (0.0165976694 : ℝ) < lA ^ 2 / 3 ∧ lA ^ 2 / 3 < 0.0165976947 :=
    ⟨by nlinarith [hA.1, hA.2], by nlinarith [hA.1, hA.2]⟩
  have hpos : (0 : ℝ) < Real.sqrt qsq * Real.sqrt dnorm0sq := by linarith [hQD.1]
  unfold s0
  constructor
  · rw [lt_div_iff₀ hpos]
    nlinarith [hQD.2, hN.1]
  · rw [div_lt_iff₀ hpos]
    nlinarith [hQD.1, hN.2]

theorem s1_bounds : (0.638921 : ℝ) < s1 ∧ s1 < 0.638923 := by
  have hq := sqrtqsq_bounds
  have hd := sqrtd1_bounds
  have hA := lA_bounds
  have hB := lB_bounds
  have hQD : (0.1224946265 : ℝ) ≤ Real.sqrt qsq * Real.sqrt dnorm1sq ∧
      Real.sqrt qsq * Real.sqrt dnorm1sq < 0.1224947016 :=
    ⟨by nlinarith [hq.1, hq.2, hd.1, hd.2], by nlinarith [hq.1, hq.2, hd.1, hd.2]⟩
  have hN : (0.0782645476 : ℝ) < lB ^ 2 / 12 + lA ^ 2 / 6 ∧
      lB ^ 2 / 12 + lA ^ 2 / 6 < 0.0782645878 :=
    ⟨by nlinarith [hA.1, hA.2, hB.1, hB.2], by nlinarith [hA.1, hA.2, hB.1, hB.2]⟩
  have hpos : (0 : ℝ) < Real.sqrt qsq * Real.sqrt dnorm1sq := by linarith [hQD.1]
  unfold s1
  constructor
  · rw [lt_div_iff₀ hpos]
    nlinarith [hQD.2, hN.1]
  · rw [div_lt_iff₀ hpos]
    nlinarith [hQD.1, hN.2]

theorem s2_bounds : (0.294854 : ℝ) < s2 ∧ s2 < 0.294855 := by
  have hq := sqrtqsq_bounds
  have hd := sqrtd2_bounds
  have hA := lA_bounds
  have hC := lC_bounds
  have hQD : (0.101894554 : ℝ) ≤ Real.sqrt qsq * Real.sqrt dnorm2sq ∧
      Real.sqrt qsq * Real.sqrt dnorm2sq < 0.1018946308 :=
    ⟨by nlinarith [hq.1, hq.2, hd.1, hd.2], by nlinarith [hq.1, hq.2, hd.1, hd.2]⟩
  have hN : (0.0300440530 : ℝ) < lA ^ 2 / 6 + lC ^ 2 / 12 ∧
      lA ^ 2 / 6 + lC ^ 2 / 12 < 0.0300440989 :=
    ⟨by nlinarith [hA.1, hA.2, hC.1, hC.2], by nlinarith [hA.1, hA.2, hC.1, hC.2]⟩
  have hpos : (0 : ℝ) < Real.sqrt qsq * Real.sqrt dnorm2sq := by linarith [hQD.1]
  unfold s2
  constructor
  · rw [lt_div_iff₀ hpos]
    nlinarith [hQD.2, hN.1]
  · rw [div_lt_iff₀ hpos]
    nlinarith [hQD.1, hN.2]

theorem s3_bounds : (0.231917 : ℝ) < s3 ∧ s3 < 0.231918 := by
  have hq := sqrtqsq_bounds
  have hd := sqrtd3_bounds
  have hC := lC_bounds
  have hQD : (0.1875253773 : ℝ) ≤ Real.sqrt qsq * Real.sqrt dnorm3sq ∧
      Real.sqrt qsq * Real.sqrt dnorm3sq < 0.187525506 :=
    ⟨by nlinarith [hq.1, hq.2, hd.1, hd.2], by nlinarith [hq.1, hq.2, hd.1, hd.2]⟩
  have hN : (0.0434904366 : ℝ) < lC ^ 2 / 6 ∧ lC ^ 2 / 6 < 0.0434905031 :=
    ⟨by nlinarith [hC.1, hC.2], by nlinarith [hC.1, hC.2]⟩
  have hpos : (0 : ℝ) < Real.sqrt qsq * Real.sqrt dnorm3sq := by linarith [hQD.1]
  unfold s3
  constructor
  · rw [lt_div_iff₀ hpos]
    nlinarith [hQD.2, hN.1]
  · rw [div_lt_iff₀ hpos]
    nlinarith [hQD.1, hN.2]

theorem s4_bounds : (0.76031 : ℝ) < s4 ∧ s4 < 0.760315 := by
  have hq := sqrtqsq_bounds
  have hd := sqrtd4_bounds
  have hA := lA_bounds
  have hB := lB_bounds
  have hC := lC_bounds
  have hQD : (0.1260799111 : ℝ) ≤ Real.sqrt qsq * Real.sqrt dnorm4sq ∧
      Real.sqrt qsq * Real.sqrt dnorm4sq < 0.1260799917 :=
    ⟨by nlinarith [hq.1, hq.2, hd.1, hd.2], by nlinarith [hq.1, hq.2, hd.1, hd.2]⟩
  have hN : (0.0958603486 : ℝ) < lB ^ 2 / 12 + lA ^ 2 / 12 + lC ^ 2 / 12 ∧
      lB ^ 2 / 12 + lA ^ 2 / 12 + lC ^ 2 / 12 < 0.0958604157 :=
    ⟨by nlinarith [hA.1, hA.2, hB.1, hB.2, hC.1, hC.2],
     by nlinarith [hA.1, hA.2, hB.1, hB.2, hC.1, hC.2]⟩
  have hpos : (0 : ℝ) < Real.sqrt qsq * Real.sqrt dnorm4sq := by linarith [hQD.1]
  unfold s4
  constructor
  · rw [lt_div_iff₀ hpos]
    nlinarith [hQD.2, hN.1]
  · rw [div_lt_iff₀ hpos]
    nlinarith [hQD.1, hN.2]

/- ## Sorting and display of the worked example -/

theorem sortDesc_eval :
    sortDesc [(1, s1), (4, s4), (0, s0), (2, s2), (3, s3)]
      = [(4, s4), (1, s1), (2, s2), (3, s3), (0, s0)] := by
  have hb0 := s0_bounds
  have hb1 := s1_bounds
  have hb2 := s2_bounds
  have hb3 := s3_bounds
  have hb4 := s4_bounds
  have h1 : s3 ≤ s2 := by linarith [hb2.1, hb3.2]
  have h2 : ¬s2 ≤ s0 := by linarith [hb0.2, hb2.1]
  have h3 : ¬s3 ≤ s0 := by linarith [hb0.2, hb3.1]
  have h4 : s2 ≤ s4 := by linarith [hb2.2, hb4.1]
  have h5 : ¬s4 ≤ s1 := by linarith [hb1.2, hb4.1]
  have h6 : s2 ≤ s1 := by linarith [hb1.1, hb2.2]
  simp [sortDesc, insertDesc, h1, h2, h3, h4, h5, h6]

theorem round3_s0 : round3 s0 = 208 := by
  have h := s0_bounds
  unfold round3
  rw [Int.floor_eq_iff]
  constructor <;> push_cast <;> linarith [h.1, h.2]

theorem round3_s1 : round3 s1 = 639 := by
  have h := s1_bounds
  unfold round3
  rw [Int.floor_eq_iff]
  constructor <;> push_cast <;> linarith [h.1, h.2]

theorem round3_s2 : round3 s2 = 295 := by
  have h := s2_bounds
  unfold round3
  rw [Int.floor_eq_iff]
  constructor <;> push_cast <;> linarith [h.1, h.2]

theorem round3_s3 : round3 s3 = 232 := by
  have h := s3_bounds
  unfold round3
  rw [Int.floor_eq_iff]
  constructor <;> push_cast <;> linarith [h.1, h.2]

theorem round3_s4 : round3 s4 = 760 := by
  have h := s4_bounds
  unfold round3
  rw [Int.floor_eq_iff]
  constructor <;> push_cast <;> linarith [h.1, h.2]

theorem lA_pos : 0 < lA := Real.log_pos (by norm_num)

theorem lB_pos : 0 < lB := Real.log_pos (by norm_num)

theorem lC_pos : 0 < lC := Real.log_pos (by norm_num)

/-- A term with a nonempty posting list is one of the five indexed terms with
occurrences. -/
theorem postings_cases (t : String) :
    postings t = [] ∨ t = "beijing" ∨ t = "dish" ∨ t = "duck" ∨
    t = "rabbit" ∨ t = "recipe" := by
  by_cases h1 : t = "beijing"
  · exact Or.inr (Or.inl h1)
  by_cases h2 : t = "dish"
  · exact Or.inr (Or.inr (Or.inl h2))
  by_cases h3 : t = "duck"
  · exact Or.inr (Or.inr (Or.inr (Or.inl h3)))
  by_cases h4 : t = "rabbit"
  · exact Or.inr (Or.inr (Or.inr (Or.inr (Or.inl h4))))
  by_cases h5 : t = "recipe"
  · exact Or.inr (Or.inr (Or.inr (Or.inr (Or.inr h5))))
  by_cases h6 : t = "roast"
  · subst h6
    exact Or.inl postings_roast
  left
  have b1 : ("beijing" == t) = false := beq_eq_false_iff_ne.2 fun e => h1 e.symm
  have b2 : ("dish" == t) = false := beq_eq_false_iff_ne.2 fun e => h2 e.symm
  have b3 : ("duck" == t) = false := beq_eq_false_iff_ne.2 fun e => h3 e.symm
  have b4 : ("rabbit" == t) = false := beq_eq_false_iff_ne.2 fun e => h4 e.symm
  have b5 : ("recipe" == t) = false := beq_eq_false_iff_ne.2 fun e => h5 e.symm
  have b6 : ("roast" == t) = false := beq_eq_false_iff_ne.2 fun e => h6 e.symm
  rw [postings, inv_idx_eval]
  simp [dget, b1, b2, b3, b4, b5, b6]

theorem sum_map_dedup_eq_finset (f : String → ℝ) (q : List String) :
    (q.dedup.map f).sum = ∑ t ∈ q.toFinset, f t := by
  have h1 : q.dedup.toFinset = q.toFinset := by
    ext a
    simp [List.mem_toFinset, List.mem_dedup]
  rw [← h1, List.sum_toFinset f (List.nodup_dedup q)]

/-- If some query term has nonzero idf, the query normalizer is strictly
positive. -/
theorem qnorm_pos_of_mem (q : List String) (t : String) (ht : t ∈ q)
    (hidf : idf t ≠ 0) : 0 < qnorm q := by
  rw [qnorm_eq_sqrt_qnormSq]
  apply Real.sqrt_pos.2
  unfold qnormSq
  rw [sum_map_dedup_eq_finset]
  have hn : (0 : ℝ) < (q.length : ℝ) := by
    exact_mod_cast List.length_pos.2 (List.ne_nil_of_mem ht)
  have hc : (0 : ℝ) < (q.count t : ℝ) := by
    exact_mod_cast List.count_pos_iff.2 ht
  have hterm : 0 < ((q.count t : ℝ) / (q.length : ℝ) * idf t) ^ 2 := by
    have hne : (q.count t : ℝ) / (q.length : ℝ) * idf t ≠ 0 :=
      mul_ne_zero (div_ne_zero (ne_of_gt hc) (ne_of_gt hn)) hidf
    exact lt_of_le_of_ne (sq_nonneg _) (Ne.symm (pow_ne_zero 2 hne))
  calc (0 : ℝ) < ((q.count t : ℝ) / (q.length : ℝ) * idf t) ^ 2 := hterm
  _ ≤ ∑ t2 ∈ q.toFinset, ((q.count t2 : ℝ) / (q.length : ℝ) * idf t2) ^ 2 :=
    @Finset.single_le_sum String ℝ _
      (fun t2 => ((q.count t2 : ℝ) / (q.length : ℝ) * idf t2) ^ 2) q.toFinset
      (fun i _ => sq_nonneg _) t (List.mem_toFinset.2 ht)

theorem noerror_components (q : List String) (e : ℕ) (he : e < 5)
    (hqn : 0 < qnorm q) (hlen : (q.length : ℝ) ≠ 0) :
    e ∈ keys doclen ∧ ((dget doclen e 0 : ℕ) : ℝ) ≠ 0 ∧ (q.length : ℝ) ≠ 0 ∧
    e ∈ keys docnorm ∧ qnorm q * dget docnorm e 0 ≠ 0 := by
  interval_cases e
  · refine ⟨by decide, by norm_num [show dget doclen 0 0 = 3 from by decide],
      hlen, ?_, ?_⟩
    · rw [docnorm_eval]; simp [keys]
    · rw [dget_docnorm_0]
      exact ne_of_gt (mul_pos hqn (lt_of_lt_of_le (by norm_num) sqrtd0_bounds.1))
  · refine ⟨by decide, by norm_num [show dget doclen 1 0 = 4 from by decide],
      hlen, ?_, ?_⟩
    · rw [docnorm_eval]; simp [keys]
    · rw [dget_docnorm_1]
      exact ne_of_gt (mul_pos hqn (lt_of_lt_of_le (by norm_num) sqrtd1_bounds.1))
  · refine ⟨by decide, by norm_num [show dget doclen 2 0 = 4 from by decide],
      hlen, ?_, ?_⟩
    · rw [docnorm_eval]; simp [keys]
    · rw [dget_docnorm_2]
      exact ne_of_gt (mul_pos hqn (lt_of_lt_of_le (by norm_num) sqrtd2_bounds.1))
  · refine ⟨by decide, by norm_num [show dget doclen 3 0 = 2 from by decide],
      hlen, ?_, ?_⟩
    · rw [docnorm_eval]; simp [keys]
    · rw [dget_docnorm_3]
      exact ne_of_gt (mul_pos hqn (lt_of_lt_of_le (by norm_num) sqrtd3_bounds.1))
  · refine ⟨by decide, by norm_num [show dget doclen 4 0 = 4 from by decide],
      hlen, ?_, ?_⟩
    · rw [docnorm_eval]; simp [keys]
    · rw [dget_docnorm_4]
      exact ne_of_gt (mul_pos hqn (lt_of_lt_of_le (by norm_num) sqrtd4_bounds.1))

/-- `score_tt` raises no error for any query over this index: every division
has a nonzero divisor and every subscript hits an existing key. -/
theorem score_tt_noerror_always (q : List String) : score_tt_noerror q := by
  constructor
  · intro hne
    have hq : q ≠ [] := by
      intro h
      rw [h] at hne
      simp at hne
    exact Nat.cast_ne_zero.2 (List.length_pos.2 hq).ne'
  · intro t ht p hp
    have hlen : (q.length : ℝ) ≠ 0 :=
      Nat.cast_ne_zero.2 (List.length_pos.2 (List.ne_nil_of_mem ht)).ne'
    rcases postings_cases t with hnil | rfl | rfl | rfl | rfl | rfl
    · rw [hnil] at hp
      simp at hp
    · have hqn : 0 < qnorm q :=
        qnorm_pos_of_mem q _ ht (by rw [idf_beijing]; exact ne_of_gt lB_pos)
      rw [postings_beijing] at hp
      have he : p.1 < 5 := by
        simp only [List.mem_cons, List.not_mem_nil, or_false] at hp
        rcases hp with rfl | rfl <;> norm_num
      exact noerror_components q p.1 he hqn hlen
    · have hqn : 0 < qnorm q :=
        qnorm_pos_of_mem q _ ht (by rw [idf_dish]; exact ne_of_gt lB_pos)
      rw [postings_dish] at hp
      have he : p.1 < 5 := by
        simp only [List.mem_cons, List.not_mem_nil, or_false] at hp
        rcases hp with rfl | rfl <;> norm_num
      exact noerror_components q p.1 he hqn hlen
    · have hqn : 0 < qnorm q :=
        qnorm_pos_of_mem q _ ht (by rw [idf_duck]; exact ne_of_gt lA_pos)
      rw [postings_duck] at hp
      have he : p.1 < 5 := by
        simp only [List.mem_cons, List.not_mem_nil, or_false] at hp
        rcases hp with rfl | rfl | rfl | rfl <;> norm_num
      exact noerror_components q p.1 he hqn hlen
    · have hqn : 0 < qnorm q :=
        qnorm_pos_of_mem q _ ht (by rw [idf_rabbit]; exact ne_of_gt lB_pos)
      rw [postings_rabbit] at hp
      have he : p.1 < 5 := by
        simp only [List.mem_cons, List.not_mem_nil, or_false] at hp
        rcases hp with rfl | rfl <;> norm_num
      exact noerror_components q p.1 he hqn hlen
    · have hqn : 0 < qnorm q :=
        qnorm_pos_of_mem q _ ht (by rw [idf_recipe]; exact ne_of_gt lC_pos)
      rw [postings_recipe] at hp
      have he : p.1 < 5 := by
        simp only [List.mem_cons, List.not_mem_nil, or_false] at hp
        rcases hp with rfl | rfl | rfl <;> norm_num
      exact noerror_components q p.1 he hqn hlen

/-- Claim C10: for the empty query, `score_tt` returns the empty mapping and
raises no error: both loops run zero iterations, the divisions by
`len(query)` and `qnorm` are never evaluated, and `qnorm` ends up 0. -/
theorem score_tt_empty_query :
    score_tt [] = [] ∧ qnorm [] = 0 ∧ score_tt_noerror [] := by
  refine ⟨rfl, ?_, score_tt_noerror_always []⟩
  simp [qnorm]

/-- Claim C8: every document `d` occurring in the posting list of some term
with nonzero idf has `docnorm[d] > 0`, so the division by
`qnorm * docnorm[doc_id]` in `score_tt` never divides by a zero document
norm for such documents; in particular all five documents of the matrix have
positive document norms. -/
theorem docnorm_pos (d : ℕ) :
    ((∃ t f, (d, f) ∈ postings t ∧ idf t ≠ 0) → 0 < dget docnorm d 0) ∧
    (d < 5 → 0 < dget docnorm d 0) := by
  have h5 : ∀ e : ℕ, e < 5 → 0 < dget docnorm e 0 := by
    intro e he
    interval_cases e
    · rw [dget_docnorm_0]; linarith [sqrtd0_bounds.1]
    · rw [dget_docnorm_1]; linarith [sqrtd1_bounds.1]
    · rw [dget_docnorm_2]; linarith [sqrtd2_bounds.1]
    · rw [dget_docnorm_3]; linarith [sqrtd3_bounds.1]
    · rw [dget_docnorm_4]; linarith [sqrtd4_bounds.1]
  constructor
  · rintro ⟨t, f, hp, -⟩
    refine h5 d ?_
    rcases postings_cases t with hnil | rfl | rfl | rfl | rfl | rfl
    · rw [hnil] at hp
      simp at hp
    · rw [postings_beijing] at hp
      simp only [List.mem_cons, List.not_mem_nil, or_false, Prod.mk.injEq] at hp
      omega
    · rw [postings_dish] at hp
      simp only [List.mem_cons, List.not_mem_nil, or_false, Prod.mk.injEq] at hp
      omega
    · rw [postings_duck] at hp
      simp only [List.mem_cons, List.not_mem_nil, or_false, Prod.mk.injEq] at hp
      omega
    · rw [postings_rabbit] at hp
      simp only [List.mem_cons, List.not_mem_nil, or_false, Prod.mk.injEq] at hp
      omega
    · rw [postings_recipe] at hp
      simp only [List.mem_cons, List.not_mem_nil, or_false, Prod.mk.injEq] at hp
      omega
  · exact h5 d

/-- Witness for C8 at document 0, which the term `"duck"` (idf `ln (5/4) ≠ 0`)
contains with frequency 3. -/
theorem docnorm_pos_witness :
    ((0, 3) ∈ postings "duck" ∧ idf "duck" ≠ 0) ∧ 0 < dget docnorm 0 0 :=
  ⟨⟨by decide, by rw [idf_duck]; exact ne_of_gt lA_pos⟩,
   (docnorm_pos 0).1 ⟨"duck", 3, by decide, by rw [idf_duck]; exact ne_of_gt lA_pos⟩⟩

/- ## The logarithm base cancels out of the pipeline -/

theorem idf10_eq (t : String) : idf10 t = (Real.log 10)⁻¹ * idf t := by
  unfold idf10 idf
  by_cases h : 0 < (postings t).length
  · simp only [h, if_true, Real.logb]
    rw [div_eq_inv_mul]
  · simp [h]

theorem log10_inv_pos : 0 < (Real.log 10)⁻¹ :=
  inv_pos.2 (Real.log_pos (by norm_num))

theorem sum_map_mul_left {σ : Type} (f : σ → ℝ) (c : ℝ) :
    ∀ l : List σ, (l.map (fun x => c * f x)).sum = c * (l.map f).sum
  | [] => by simp
  | x :: rest => by
    simp [sum_map_mul_left f c rest, mul_add]

theorem qnorm10_scaled (q : List String) :
    qnorm10 q = (Real.log 10)⁻¹ * qnorm q := by
  have h1 : qnorm10 q = Real.sqrt (q.dedup.foldl
      (fun acc term =>
        acc + ((q.count term : ℝ) / (q.length : ℝ) * idf10 term) ^ 2) 0) := rfl
  rw [h1, foldl_add_eq_sum
    (fun term => ((q.count term : ℝ) / (q.length : ℝ) * idf10 term) ^ 2) q.dedup 0]
  have hfun : (fun term => ((q.count term : ℝ) / (q.length : ℝ) * idf10 term) ^ 2)
      = (fun term => ((Real.log 10)⁻¹) ^ 2 *
          (((q.count term : ℝ) / (q.length : ℝ) * idf term) ^ 2)) := by
    funext t
    rw [idf10_eq]
    ring
  rw [hfun, sum_map_mul_left
    (fun term => ((q.count term : ℝ) / (q.length : ℝ) * idf term) ^ 2)
    (((Real.log 10)⁻¹) ^ 2) q.dedup]
  rw [zero_add, Real.sqrt_mul (sq_nonneg _), Real.sqrt_sq (le_of_lt log10_inv_pos),
    qnorm_eq_sqrt_qnormSq]
  rfl

theorem docnormSums10_eval :
    docnormSums10
      = [(1, ((Real.log 10)⁻¹) ^ 2 * dnorm1sq), (4, ((Real.log 10)⁻¹) ^ 2 * dnorm4sq),
         (0, ((Real.log 10)⁻¹) ^ 2 * dnorm0sq), (2, ((Real.log 10)⁻¹) ^ 2 * dnorm2sq),
         (3, ((Real.log 10)⁻¹) ^ 2 * dnorm3sq)] := by
  unfold docnormSums10
  rw [terms_eval]
  simp only [List.foldl_cons, List.foldl_nil, postings_beijing, postings_dish,
    postings_duck, postings_rabbit, postings_recipe, postings_roast, idf10_eq,
    idf_beijing, idf_dish, idf_duck, idf_rabbit, idf_recipe, idf_roast,
    doclen_eval]
  norm_num [dget, dset, dnorm0sq, dnorm1sq, dnorm2sq, dnorm3sq, dnorm4sq]
  ring_nf
  norm_num

theorem docnorm10_eval :
    docnorm10
      = [(1, (Real.log 10)⁻¹ * Real.sqrt dnorm1sq),
         (4, (Real.log 10)⁻¹ * Real.sqrt dnorm4sq),
         (0, (Real.log 10)⁻¹ * Real.sqrt dnorm0sq),
         (2, (Real.log 10)⁻¹ * Real.sqrt dnorm2sq),
         (3, (Real.log 10)⁻¹ * Real.sqrt dnorm3sq)] := by
  unfold docnorm10
  rw [docnormSums10_eval]
  simp only [List.map_cons, List.map_nil]
  have hs : ∀ v : ℝ, Real.sqrt (((Real.log 10)⁻¹) ^ 2 * v)
      = (Real.log 10)⁻¹ * Real.sqrt v := by
    intro v
    rw [Real.sqrt_mul (sq_nonneg _), Real.sqrt_sq (le_of_lt log10_inv_pos)]
  rw [hs, hs, hs, hs, hs]

theorem dget_map_snd {γ : Type} [BEq α] (g : β → γ) (d : Dict α β) (k : α) (v0 : β) :
    dget (d.map (fun p => (p.1, g p.2))) k (g v0) = g (dget d k v0) := by
  induction d with
  | nil => rfl
  | cons p rest ih =>
    by_cases h : (p.1 == k) = true <;> simp [dget, h, ih]

theorem dget_docnorm10_scaled (e : ℕ) :
    dget docnorm10 e 0 = (Real.log 10)⁻¹ * dget docnorm e 0 := by
  have hmap : docnorm10 = docnorm.map (fun p => (p.1, (Real.log 10)⁻¹ * p.2)) := by
    rw [docnorm_eval, docnorm10_eval]
    rfl
  calc dget docnorm10 e 0
      = dget (docnorm.map (fun p => (p.1, (Real.log 10)⁻¹ * p.2))) e
          ((Real.log 10)⁻¹ * 0) := by rw [hmap, mul_zero]
    _ = (Real.log 10)⁻¹ * dget docnorm e 0 :=
      dget_map_snd (fun v => (Real.log 10)⁻¹ * v) docnorm e 0

theorem score_tt10_eq_accum (q : List String) :
    score_tt10 q = q.foldl (fun scores term =>
      (postings term).foldl (fun scores2 p =>
        dset scores2 p.1 (dget scores2 p.1 0 + score_term10 q term p)) scores) [] := rfl

/-- Claim C9: replacing the natural logarithm of the code's `idf` by the
spec's `log10` leaves `score_tt` extensionally unchanged: the constant factor
`1 / ln 10` on every idf value multiplies both tfidf factors and both
normalizers, and cancels in
`score_term = tfidf_tq * tfidf_td / (qnorm * docnorm)`. -/
theorem score_tt10_eq_score_tt (q : List String) : score_tt10 q = score_tt q := by
  rw [score_tt_eq_accum, score_tt10_eq_accum]
  have hterm : ∀ t p, score_term10 q t p = score_term q t p := by
    intro t p
    unfold score_term10 score_term
    rw [idf10_eq, qnorm10_scaled, dget_docnorm10_scaled]
    have hC : (Real.log 10)⁻¹ ≠ 0 := ne_of_gt log10_inv_pos
    have hC2 : ((Real.log 10)⁻¹) ^ 2 ≠ 0 := pow_ne_zero 2 hC
    have hden : (Real.log 10)⁻¹ * qnorm q * ((Real.log 10)⁻¹ * dget docnorm p.1 0)
        = ((Real.log 10)⁻¹) ^ 2 * (qnorm q * dget docnorm p.1 0) := by ring
    have hnum : 1 / (q.length : ℝ) * ((Real.log 10)⁻¹ * idf t) *
          ((p.2 : ℝ) / ((dget doclen p.1 0 : ℕ) : ℝ) * ((Real.log 10)⁻¹ * idf t))
        = ((Real.log 10)⁻¹) ^ 2 * (1 / (q.length : ℝ) * idf t *
          ((p.2 : ℝ) / ((dget doclen p.1 0 : ℕ) : ℝ) * idf t)) := by ring
    rw [hden, hnum]
    exact mul_div_mul_left _ _ hC2
  have hfun : (fun (scores : Dict ℕ ℝ) (term : String) =>
      (postings term).foldl (fun scores2 p =>
        dset scores2 p.1 (dget scores2 p.1 0 + score_term10 q term p)) scores)
      = (fun scores term =>
      (postings term).foldl (fun scores2 p =>
        dset scores2 p.1 (dget scores2 p.1 0 + score_term q term p)) scores) := by
    funext scores term
    congr 1
    funext scores2 p
    rw [hterm term p]
  rw [hfun]

/- ## Removing a term with an empty posting list -/

theorem sum_map_div {σ : Type} (f : σ → ℝ) (c : ℝ) :
    ∀ l : List σ, (l.map (fun x => f x / c)).sum = (l.map f).sum / c
  | [] => by simp
  | x :: rest => by
    simp only [List.map_cons, List.sum_cons, sum_map_div f c rest]
    ring

theorem qnormSq_eq_Usum (q : List String) :
    qnormSq q = Usum q / ((q.length : ℝ)) ^ 2 := by
  unfold qnormSq Usum
  have hfun : (fun term => ((q.count term : ℝ) / (q.length : ℝ) * idf term) ^ 2)
      = (fun term => (((q.count term : ℝ) * idf term) ^ 2) / ((q.length : ℝ)) ^ 2) := by
    funext t
    ring
  rw [hfun, sum_map_div (fun term => ((q.count term : ℝ) * idf term) ^ 2)
    (((q.length : ℝ)) ^ 2) q.dedup]

theorem Usum_nonneg (q : List String) : 0 ≤ Usum q := by
  unfold Usum
  apply List.sum_nonneg
  intro x hx
  simp only [List.mem_map] at hx
  obtain ⟨t, -, rfl⟩ := hx
  exact sq_nonneg _

theorem qnorm_eq_sqrt_Usum (q : List String) :
    qnorm q = Real.sqrt (Usum q) / (q.length : ℝ) := by
  rw [qnorm_eq_sqrt_qnormSq, qnormSq_eq_Usum, Real.sqrt_div (Usum_nonneg q),
    Real.sqrt_sq (Nat.cast_nonneg _)]

theorem Usum_filter (q : List String) (t0 : String) (h0 : idf t0 = 0) :
    Usum (q.filter (fun t => !(t == t0))) = Usum q := by
  unfold Usum
  rw [sum_map_dedup_eq_finset, sum_map_dedup_eq_finset, List.toFinset_filter]
  have hcong : ∀ t ∈ q.toFinset.filter (fun a => (!(a == t0)) = true),
      (((q.filter (fun t2 => !(t2 == t0))).count t : ℝ) * idf t) ^ 2
        = ((q.count t : ℝ) * idf t) ^ 2 := by
    intro t htf
    have hne : (!(t == t0)) = true := by
      simpa using (Finset.mem_filter.1 htf).2
    rw [show List.count t (List.filter (fun t2 => !(t2 == t0)) q) = List.count t q
      from List.count_filter hne]
  rw [Finset.sum_congr rfl hcong]
  apply Finset.sum_filter_of_ne
  intro t ht hnz
  by_contra hb
  have hbt : (t == t0) = true := by
    rcases Bool.eq_false_or_eq_true (t == t0) with h | h
    · exact h
    · exact absurd (by simp [h]) hb
  apply hnz
  rw [eq_of_beq hbt, h0]
  ring

theorem sum_map_filter_bang (g : String → ℝ) (t0 : String) (h : g t0 = 0) :
    ∀ q : List String, ((q.filter (fun t => !(t == t0))).map g).sum = (q.map g).sum
  | [] => by simp
  | t :: rest => by
    by_cases ht : (t == t0) = true
    · have hteq : t = t0 := eq_of_beq ht
      rw [List.filter_cons]
      simp only [ht, Bool.not_true, Bool.false_eq_true, if_false]
      rw [sum_map_filter_bang g t0 h rest]
      simp only [List.map_cons, List.sum_cons, hteq, h]
      rw [zero_add]
    · have htb : (!(t == t0)) = true := by simp [ht]
      rw [List.filter_cons]
      simp only [htb, if_true, List.map_cons, List.sum_cons,
        sum_map_filter_bang g t0 h rest]

/-- The division in `score_term` is insensitive to replacing the query by the
query with all copies of a zero-posting term removed: the query length and
the query normalizer change by exactly cancelling factors. -/
theorem score_term_div_cancel (q : List String) (t0 : String)
    (h0 : postings t0 = []) (hmem : t0 ∈ q)
    (hm : q.filter (fun t => !(t == t0)) ≠ []) :
    ∀ t p, score_term q t p = score_term (q.filter (fun t => !(t == t0))) t p := by
  intro t p
  have hidf0 : idf t0 = 0 := by simp [idf, h0]
  have hn : (q.length : ℝ) ≠ 0 :=
    Nat.cast_ne_zero.2 (List.length_pos.2 (List.ne_nil_of_mem hmem)).ne'
  have hmne : ((q.filter (fun t2 => !(t2 == t0))).length : ℝ) ≠ 0 :=
    Nat.cast_ne_zero.2 (List.length_pos.2 hm).ne'
  unfold score_term
  rw [qnorm_eq_sqrt_Usum, qnorm_eq_sqrt_Usum, Usum_filter q t0 hidf0]
  have key : ∀ (k i w U D : ℝ), k ≠ 0 →
      (1 / k * i) * (w * i) / ((Real.sqrt U / k) * D)
        = i * (w * i) / (Real.sqrt U * D) := by
    intro k i w U D hk
    rw [show (Real.sqrt U / k) * D = (Real.sqrt U * D) / k from by ring,
      div_div_eq_mul_div]
    congr 1
    have hkk : k * (1 / k) = 1 := mul_one_div_cancel hk
    calc 1 / k * i * (w * i) * k = i * (w * i) * (k * (1 / k)) := by ring
    _ = i * (w * i) := by rw [hkk, mul_one]
  rw [key _ _ _ _ _ hn, key _ _ _ _ _ hmne]

/-- Claim C6: a query containing a term with an empty posting list raises no
error, and yields exactly the same score mapping (same keys, same values) as
the query with that term removed — the absent term contributes idf 0 to the
query norm and no postings to the accumulation, and the change in query
length and normalizer cancels out of every score. -/
theorem score_tt_zero_postings_term (q : List String) (t0 : String)
    (h0 : postings t0 = []) (hmem : t0 ∈ q) :
    (∀ d, dget (score_tt q) d 0
        = dget (score_tt (q.filter (fun t => !(t == t0)))) d 0) ∧
    (∀ d, d ∈ keys (score_tt q)
        ↔ d ∈ keys (score_tt (q.filter (fun t => !(t == t0))))) ∧
    score_tt_noerror q := by
  refine ⟨?_, ?_, score_tt_noerror_always q⟩
  · intro d
    rw [dget_score_tt, dget_score_tt]
    by_cases hm : q.filter (fun t => !(t == t0)) = []
    · have hall : ∀ t ∈ q, t = t0 := by
        intro t ht
        by_contra hne
        have htf : t ∈ q.filter (fun t2 => !(t2 == t0)) :=
          List.mem_filter.2 ⟨ht, by simp [hne]⟩
        rw [hm] at htf
        simp at htf
      rw [hm]
      simp only [List.map_nil, List.sum_nil]
      apply List.sum_eq_zero
      intro x hx
      simp only [List.mem_map] at hx
      obtain ⟨t, ht, rfl⟩ := hx
      rw [hall t ht, h0]
      simp
    · have hst := score_term_div_cancel q t0 h0 hmem hm
      have hfq : (fun t =>
          (((postings t).filter (fun p => p.1 == d)).map (score_term q t)).sum)
          = (fun t =>
          (((postings t).filter (fun p => p.1 == d)).map
            (score_term (q.filter (fun t2 => !(t2 == t0))) t)).sum) := by
        funext t
        rw [show score_term q t = score_term (q.filter (fun t2 => !(t2 == t0))) t
          from funext (hst t)]
      rw [hfq]
      refine (sum_map_filter_bang _ t0 ?_ q).symm
      rw [h0]
      simp
  · intro d
    rw [mem_keys_score_tt, mem_keys_score_tt]
    constructor
    · rintro ⟨t, ht, p2, hp2, rfl⟩
      have hne : ¬(t == t0) = true := by
        intro hb
        rw [eq_of_beq hb, h0] at hp2
        simp at hp2
      exact ⟨t, List.mem_filter.2 ⟨ht, by simpa using hne⟩, p2, hp2, rfl⟩
    · rintro ⟨t, ht, p2, hp2, rfl⟩
      exact ⟨t, (List.mem_filter.1 ht).1, p2, hp2, rfl⟩

/-- Witness for C6 with the query `["duck", "roast"]`, where `"roast"` has an
empty posting list. -/
theorem score_tt_zero_postings_term_witness :
    postings "roast" = [] ∧ "roast" ∈ (["duck", "roast"] : List String) ∧
    dget (score_tt ["duck", "roast"]) 0 0
      = dget (score_tt ((["duck", "roast"] : List String).filter
          (fun t => !(t == "roast")))) 0 0 :=
  ⟨by decide, by decide,
   (score_tt_zero_postings_term ["duck", "roast"] "roast" (by decide) (by decide)).1 0⟩

/-- Claim C1: for the hardcoded matrix (`N = 5`) and the query
`["beijing", "duck", "recipe"]`, `score_tt` followed by the display routine
(sort by descending score, render doc id `d` as `"D" + (d+1)`, round to 3
decimals) produces exactly the ranked lines
`D5: 0.76`, `D2: 0.639`, `D3: 0.295`, `D4: 0.232`, `D1: 0.208`. -/
theorem display_worked_example :
    displayLines (score_tt ["beijing", "duck", "recipe"])
      = [("D5", 0.76), ("D2", 0.639), ("D3", 0.295), ("D4", 0.232),
         ("D1", 0.208)] := by
  rw [score_tt_query_eval]
  unfold displayLines
  rw [sortDesc_eval]
  simp only [List.map_cons, List.map_nil, round3_s0, round3_s1, round3_s2,
    round3_s3, round3_s4]
  norm_num
  decide

end Taat
